import Mathlib

/-!
Shallow embedding of the cylon inference-server serving core.

Sources embedded here:
* `src/cylon-model/src/eos.rs`                     — `EosTokenHandler`
* `src/cylon-inference-engine/src/inference_engine.rs` — `InferenceConfig`,
  `InferenceEngine::generate`
* `candle_transformers::utils::apply_repeat_penalty` (external dependency called
  by the generation loop; embedded from its published source)
* `src/cylon/src/result_cache.rs`                  — `ResultCache`
* `src/cylon/src/prompt_queue.rs`                  — `PromptQueue` (on top of a
  model of tokio's bounded mpsc channel)
* `src/cylon/src/api.rs`                           — `inference_run`,
  `inference_status`, `inference_result`
* `src/cylon/src/queue_processor.rs`               — `QueueProcessor::process_queue`
* `src/src/utils.rs`                               — `get_last_json`

Machine integers: token ids are `u32` in the source and list lengths are
`usize`; no arithmetic in the embedded code can overflow them (lengths stay
far below `2^32`), so both are modelled as `Nat`, with the one `saturating_sub`
in the source matching `Nat` truncated subtraction.  Logits are `f32`/`f64`
tensors in the source; the claims about them concern only which entries are
rewritten and by which field operation, so logits are modelled as `ℚ`.
Wall-clock instants (`chrono::DateTime<Utc>`) are modelled as `Int` time
units; `chrono::Duration` subtraction and comparison become `Int` subtraction
and comparison.
-/

namespace Cylon

/-- Token ids (`u32` in the source; vocabulary ids never approach `2^32`). -/
abbrev Token := Nat

/-- `src/cylon-model/src/eos.rs` — `enum EosTokenHandler`. -/
inductive EosTokenHandler where
  | single (id : Token)
  | multiple (ids : List Token)
  | none
deriving DecidableEq, Repr

/-- `EosTokenHandler::is_eos_token` (`src/cylon-model/src/eos.rs:8-16`). -/
def EosTokenHandler.isEosToken (h : EosTokenHandler) (tokenId : Token) : Bool :=
  match h with
  | .single id => tokenId == id
  | .multiple ids => ids.contains tokenId
  | .none => false

/-- `src/cylon-inference-engine/src/inference_engine.rs` — `struct InferenceConfig`.
`temperature`/`top_k`/`top_p`/`seed` select the sampling mode of the logits
processor, which the engine model below keeps abstract; they are carried for
fidelity to the source struct. -/
structure InferenceConfig where
  temperature : ℚ
  topK : Option Nat
  topP : Option ℚ
  seed : Option Nat
  repeatPenalty : ℚ
  repeatLastN : Nat
deriving Repr

/-- The per-logit rewrite of candle's `apply_repeat_penalty`:
`if *logit >= 0. { *logit /= penalty } else { *logit *= penalty }`. -/
def penalizeLogit (penalty x : ℚ) : ℚ :=
  if 0 ≤ x then x / penalty else x * penalty

/-- One in-place update `logits[t] ← penalizeLogit penalty logits[t]`, a
no-op when `t` is out of bounds (the `logits.get_mut(*token_id as usize)`
of candle's `apply_repeat_penalty`). -/
def penalizeIdx (penalty : ℚ) (t : Nat) (logits : List ℚ) : List ℚ :=
  match logits, t with
  | [], _ => []
  | l :: rest, 0 => penalizeLogit penalty l :: rest
  | l :: rest, n + 1 => l :: penalizeIdx penalty n rest

/-- The context fold of candle's `apply_repeat_penalty`: walk the context
tokens, skipping ids already seen (`already_seen` HashSet), and rewrite the
logit at each new id once. -/
def applyRepeatPenaltyGo (logits : List ℚ) (penalty : ℚ) :
    List Token → List Token → List ℚ
  | [], _ => logits
  | t :: rest, seen =>
    if t ∈ seen then applyRepeatPenaltyGo logits penalty rest seen
    else applyRepeatPenaltyGo (penalizeIdx penalty t logits) penalty rest (t :: seen)

/-- `candle_transformers::utils::apply_repeat_penalty` (external crate called
at `inference_engine.rs:109`), on the vector of logits. -/
def applyRepeatPenalty (logits : List ℚ) (penalty : ℚ) (context : List Token) : List ℚ :=
  applyRepeatPenaltyGo logits penalty context []

/-- The logits-shaping step of one generation iteration
(`inference_engine.rs:107-117`): when `repeat_penalty != 1.0`, apply the
repeat penalty over `tokens[tokens.len().saturating_sub(repeat_last_n)..]`
(the tail of the *full* current token list — prompt tokens included);
otherwise pass the logits through unchanged. -/
def shapeLogits (cfg : InferenceConfig) (tokens : List Token) (logits : List ℚ) : List ℚ :=
  if cfg.repeatPenalty ≠ 1 then
    applyRepeatPenalty logits cfg.repeatPenalty
      (tokens.drop (tokens.length - cfg.repeatLastN))
  else logits

/-- Ghost instrumentation: everything one loop iteration did — the slice and
position handed to `model.forward`, the raw logits it returned, the logits
after the repeat-penalty step (exactly what reaches the sampler), and the
sampled token. -/
structure IterRecord where
  ctxt : List Token
  contextIndex : Nat
  rawLogits : List ℚ
  shapedLogits : List ℚ
  sampled : Token
deriving DecidableEq, Repr

/-- Result of the generation loop: the per-iteration records, the number of
`model.forward` invocations performed, and the value `generate` returns
(`Ok(generated_tokens)` or the first propagated error). -/
structure GenOut where
  records : List IterRecord
  fwdCount : Nat
  result : Except String (List Token)
deriving Repr

/-- The `ModelInference` capability set (`inference_engine.rs:51-62`) as the
generation loop consumes it.  `initCache` stands for the result of
`create_cache(use_kv_cache, dtype, device)`; `sample` stands for
`LogitsProcessor::sample` with its mutable RNG state `S` made explicit
(device/dtype bookkeeping has no bearing on the embedded control flow). -/
structure EngineModel (C S : Type) where
  useKvCache : Bool
  initCache : C
  forward : List Token → Nat → C → Except String (List ℚ × C)
  eosHandler : EosTokenHandler
  sample : List ℚ → S → Except String (Token × S)
  initSampler : S

/-- The `(context_size, context_index)` choice of one loop iteration
(`inference_engine.rs:86-91`): a single-token window at `tokens.len() - 1`
when the KV cache is in use and `index > 0`, the full window at `0`
otherwise. -/
def contextWindow (useKv : Bool) (index : Nat) (tokens : List Token) : Nat × Nat :=
  if useKv = true ∧ 0 < index then (1, tokens.length - 1) else (tokens.length, 0)

/-- The `for index in 0..max_tokens` loop of `InferenceEngine::generate`
(`inference_engine.rs:85-143`), one recursive step per iteration:
choose the context window, run `forward`, shape the logits, sample, push the
token onto both lists, and stop on the first EOS token.  Errors propagate as
the source's `?` does.  `fuel` is the number of loop iterations remaining
(`max_tokens - index`). -/
def genLoop {C S : Type} (m : EngineModel C S) (cfg : InferenceConfig)
    (tokens : List Token) (index : Nat) (cache : C) (samp : S) : Nat → GenOut
  | 0 => ⟨[], 0, .ok []⟩
  | fuel + 1 =>
    let cw : Nat × Nat := contextWindow m.useKvCache index tokens
    let ctxt := tokens.drop (tokens.length - cw.1)
    match m.forward ctxt cw.2 cache with
    | .error e => ⟨[], 1, .error e⟩
    | .ok (rawLogits, cache') =>
      let shaped := shapeLogits cfg tokens rawLogits
      match m.sample shaped samp with
      | .error e => ⟨[], 1, .error e⟩
      | .ok (nextToken, samp') =>
        let r : IterRecord := ⟨ctxt, cw.2, rawLogits, shaped, nextToken⟩
        if m.eosHandler.isEosToken nextToken then ⟨[r], 1, .ok [nextToken]⟩
        else
          let rest := genLoop m cfg (tokens ++ [nextToken]) (index + 1) cache' samp' fuel
          ⟨r :: rest.records, rest.fwdCount + 1, rest.result.map (fun g => nextToken :: g)⟩

/-- `InferenceEngine::generate` with its ghost instrumentation. -/
def generateFull {C S : Type} (m : EngineModel C S) (cfg : InferenceConfig)
    (tokens : List Token) (maxTokens : Nat) : GenOut :=
  genLoop m cfg tokens 0 m.initCache m.initSampler maxTokens

namespace InferenceEngine

/-- `InferenceEngine::generate` (`inference_engine.rs:70-143`): what the
source function returns — the newly generated token ids. -/
def generate {C S : Type} (m : EngineModel C S) (cfg : InferenceConfig)
    (tokens : List Token) (maxTokens : Nat) : Except String (List Token) :=
  (generateFull m cfg tokens maxTokens).result

end InferenceEngine

/-- The `Sampling::ArgMax` branch of candle's `LogitsProcessor::sample`
(selected when `temperature <= 0`): index of the maximum logit, with
`Iterator::max_by` keeping the *last* of equal maxima; `unwrap` on an empty
vector is modelled as an error. -/
def sampleArgmax (logits : List ℚ) : Except String Token :=
  match logits.enum.foldl
      (fun acc p =>
        match acc with
        | Option.none => some p
        | some q => if q.2 ≤ p.2 then some p else some q)
      Option.none with
  | some p => .ok p.1
  | Option.none => .error "empty logits"

/-! ## Serving core data model (`src/cylon/src`) -/

/-- Proto `Message = { role: string, content: string }`. -/
structure Message where
  role : String
  content : String
deriving DecidableEq, Repr

/-- `InferenceRunRequest.messages` — the request is its ordered message list. -/
abbrev InferenceRunRequest := List Message

/-- Proto `InferenceRunReply = { response, status, uuid }`. -/
structure InferenceRunReply where
  response : Option Message
  status : String
  uuid : String
deriving DecidableEq, Repr

/-- `tonic::Status` codes produced by the serving core. -/
inductive GrpcError where
  | internal (msg : String)
  | notFound (msg : String)
deriving DecidableEq, Repr

/-- `src/cylon/src/result_cache.rs` — `ResultCache<K, V>`: a map from key to
`(value, insertion DateTime)` plus a TTL `Duration`.  The `DashMap` is
modelled as a key-unique association list; instants and durations as `Int`. -/
structure ResultCache (K V : Type) where
  entries : List (K × V × Int)
  ttl : Int
deriving Repr

/-- Raw map lookup (the `DashMap::get` underneath, before the TTL check). -/
def ResultCache.lookup {K V : Type} [DecidableEq K]
    (c : ResultCache K V) (k : K) : Option (V × Int) :=
  (c.entries.find? (fun e => e.1 = k)).map (fun e => e.2)

/-- `ResultCache::insert` (`result_cache.rs:34-36`): writes `(value, now)`,
overwriting any prior entry for the key (`DashMap::insert` semantics). -/
def ResultCache.insert {K V : Type} [DecidableEq K]
    (c : ResultCache K V) (now : Int) (k : K) (v : V) : ResultCache K V :=
  { c with entries := (k, v, now) :: c.entries.filter (fun e => ¬ e.1 = k) }

/-- `ResultCache::get` (`result_cache.rs:21-32`): return `value.clone()` when
`now - timestamp < ttl`; otherwise remove the expired entry as a side effect
of the read and return `None`.  Returns the (possibly evicted-from) cache. -/
def ResultCache.get {K V : Type} [DecidableEq K]
    (c : ResultCache K V) (now : Int) (k : K) : Option V × ResultCache K V :=
  match c.lookup k with
  | Option.none => (Option.none, c)
  | some (v, timestamp) =>
    if now - timestamp < c.ttl then (some v, c)
    else (Option.none, { c with entries := c.entries.filter (fun e => ¬ e.1 = k) })

/-- `src/cylon/src/prompt_queue.rs` — `struct QueuedRequest`. -/
structure QueuedRequest where
  jobId : String
  request : InferenceRunRequest
deriving DecidableEq, Repr

/-- The `tokio::sync::mpsc::channel(buffer_size)` pair owned by `PromptQueue`:
its in-flight buffer, its capacity, and whether the `Receiver` is still alive
(it lives inside the same `PromptQueue` struct, so it stays alive as long as
the queue does). -/
structure PromptQueue where
  buffer : List QueuedRequest
  capacity : Nat
  receiverAlive : Bool
  queueLen : Nat
deriving Repr

/-- Outcome of one `await` of tokio's bounded `mpsc::Sender::send`:
the send completes when capacity is available, *waits* (does not complete)
when the channel is full, and returns `SendError` only when the receiver has
been dropped.  Modelled from tokio's documented semantics — `send` never
fails due to a full buffer. -/
inductive SendOutcome where
  | sent (buffer : List QueuedRequest)
  | wouldBlock
  | closed
deriving Repr

/-- One step of `Sender::send(item).await` against the channel state. -/
def channelSend (q : PromptQueue) (item : QueuedRequest) : SendOutcome :=
  if !q.receiverAlive then .closed
  else if q.buffer.length < q.capacity then .sent (q.buffer ++ [item])
  else .wouldBlock

/-- Result of awaiting `PromptQueue::enqueue`: completed with `Ok`, completed
with `Err` (the `map_err` branch labelled "Queue full"), or suspended on the
channel send. -/
inductive EnqueueOutcome where
  | ok (q : PromptQueue)
  | err (msg : String)
  | blocked
deriving Repr

/-- `PromptQueue::enqueue` (`prompt_queue.rs:23-28`): send on the bounded
channel, surface a send *failure* as `Err("Queue full: ...")`, and bump
`queue_len` on success. -/
def PromptQueue.enqueue (q : PromptQueue) (jobId : String)
    (req : InferenceRunRequest) : EnqueueOutcome :=
  match channelSend q ⟨jobId, req⟩ with
  | .sent buffer => .ok { q with buffer := buffer, queueLen := q.queueLen + 1 }
  | .closed => .err "Queue full: channel closed"
  | .wouldBlock => .blocked

/-- `PromptQueue::dequeue` (`prompt_queue.rs:30-41`): non-blocking
`try_recv`; both `Empty` and `Disconnected` yield `None`, `queue_len` is
decremented with `saturating_sub`. -/
def PromptQueue.dequeue (q : PromptQueue) : Option (QueuedRequest × PromptQueue) :=
  match q.buffer with
  | [] => Option.none
  | item :: rest => some (item, { q with buffer := rest, queueLen := q.queueLen - 1 })

/-- The serving core state shared by the handlers (`struct Cylon`,
`src/cylon/src/lib.rs:25-34`).  The model/system-prompt/sample-len triple is
abstracted into the `inf` closure the transition functions take. -/
structure ServerState where
  queue : PromptQueue
  processing : Bool
  results : ResultCache String InferenceRunReply
  queueDisabled : Bool
deriving Repr

/-- Observable outcome of one `inference_run` call: a gRPC reply, a gRPC
error status, or a handler that never completes because it is suspended on
the channel send inside `enqueue` (holding the queue mutex). -/
inductive RunOutcome where
  | reply (r : InferenceRunReply) (s : ServerState)
  | err (e : GrpcError) (s : ServerState)
  | blocked (s : ServerState)
deriving Repr

/-- `inference_run` (`src/cylon/src/api.rs:15-113`).  `inf` is
`process_inference_request` (render + generate on the blocking pool);
`jobId` is the freshly generated v4 UUID; `now` the wall clock at the cache
insert.  On the immediate queue-enabled path the source spawns the drainer
after building the reply — the drainer itself is `processQueue` below and is
composed by the caller.  Note the source quirks kept here: the immediate
paths insert nothing into the result cache, and an inference error on the
processing-false path leaves `processing = true`. -/
def inferenceRun (inf : InferenceRunRequest → Except GrpcError String)
    (s : ServerState) (now : Int) (jobId : String)
    (req : InferenceRunRequest) : RunOutcome :=
  if s.queueDisabled then
    match inf req with
    | .error e => .err e s
    | .ok response =>
      .reply ⟨some ⟨"assistant", response⟩, "OK", jobId⟩ s
  else if !s.processing then
    let s := { s with processing := true }
    match inf req with
    | .error e => .err e s
    | .ok response =>
      .reply ⟨some ⟨"assistant", response⟩, "OK", jobId⟩ s
  else
    match s.queue.enqueue jobId req with
    | .err e => .err (.internal ("Failed to enqueue request: " ++ e)) s
    | .blocked => .blocked s
    | .ok q =>
      let entry : InferenceRunReply := ⟨Option.none, "QUEUED", jobId⟩
      let s := { s with queue := q, results := s.results.insert now jobId entry }
      .reply ⟨Option.none, "QUEUED", jobId⟩ s

/-- `inference_status` (`api.rs:115-128`): cache lookup through
`ResultCache::get`; absent → `Status::not_found`. -/
def inferenceStatus (s : ServerState) (now : Int) (uuid : String) :
    Except GrpcError String × ServerState :=
  match s.results.get now uuid with
  | (some r, results) => (.ok r.status, { s with results := results })
  | (Option.none, results) =>
    (.error (.notFound ("Job ID " ++ uuid ++ " not found")), { s with results := results })

/-- `inference_result` (`api.rs:130-143`): cache lookup; absent →
`Status::not_found`; present → the stored optional response. -/
def inferenceResult (s : ServerState) (now : Int) (uuid : String) :
    Except GrpcError (Option Message) × ServerState :=
  match s.results.get now uuid with
  | (some r, results) => (.ok r.response, { s with results := results })
  | (Option.none, results) =>
    (.error (.notFound ("Job ID " ++ uuid ++ " not found")), { s with results := results })

/-- The terminal cache entry the drainer writes for one dequeued job
(`queue_processor.rs:37-56`): `COMPLETED` with the assistant message on
success, `ERROR` with no response on failure. -/
def terminalEntry (inf : InferenceRunRequest → Except GrpcError String)
    (job : QueuedRequest) : InferenceRunReply :=
  match inf job.request with
  | .ok response => ⟨some ⟨"assistant", response⟩, "COMPLETED", job.jobId⟩
  | .error _ => ⟨Option.none, "ERROR", job.jobId⟩

/-- `QueueProcessor::process_queue` (`queue_processor.rs:24-66`): dequeue
until empty, writing one terminal entry per job and continuing past
failures; on empty, reset `processing := false` and exit.  Also returns the
ghost log of `results.insert` calls performed, in order. -/
def processQueue (inf : InferenceRunRequest → Except GrpcError String)
    (now : Int) (s : ServerState) : ServerState × List (String × InferenceRunReply) :=
  match h : s.queue.dequeue with
  | Option.none => ({ s with processing := false }, [])
  | some (job, q) =>
    let entry := terminalEntry inf job
    let rest := processQueue inf now
      { s with queue := q, results := s.results.insert now job.jobId entry }
    (rest.1, (job.jobId, entry) :: rest.2)
termination_by s.queue.buffer.length
decreasing_by
  simp only [PromptQueue.dequeue] at h
  cases hb : s.queue.buffer with
  | nil => rw [hb] at h; exact absurd h (by simp)
  | cons a l =>
    rw [hb] at h
    simp only [Option.some.injEq, Prod.mk.injEq] at h
    simp [hb, ← h.2]

/-! ## Model backend layer (`src/cylon-models/src/llama.rs`) and the shared
request-processing path (`src/cylon/src/lib.rs`) -/

/-- A `TextGenerator` backend as `LlamaModel` implements it
(`llama.rs:152-200`): the engine-facing capability set plus the tokenizer
(`tokenize`/`decode`), the chat-template `render`, and the inference config.
`decode` is the tokenizer's `decode(tokens, true)`, i.e. with
`skip_special_tokens = true`. -/
structure LlamaLikeModel (C S : Type) where
  engine : EngineModel C S
  cfg : InferenceConfig
  tokenize : String → Except String (List Token)
  decode : List Token → Except String String
  render : List String → Except String String

/-- `LlamaModel::generate` (`llama.rs:153-165`): tokenize the prompt, run the
inference engine, decode the generated tokens. -/
def LlamaLikeModel.generate {C S : Type} (m : LlamaLikeModel C S)
    (prompt : String) (maxTokens : Nat) : Except String String := do
  let tokens ← m.tokenize prompt
  let generatedTokens ← InferenceEngine.generate m.engine m.cfg tokens maxTokens
  m.decode generatedTokens

/-- `LlamaModel::inference` (`llama.rs:167-175`): render the prompt list
through the chat template, then generate. -/
def LlamaLikeModel.inference {C S : Type} (m : LlamaLikeModel C S)
    (prompt : List String) (maxTokens : Nat) : Except String String := do
  let rendered ← m.render prompt
  m.generate rendered maxTokens

/-- `serde_json::to_string` of a `Prompt { role, content }`
(`lib.rs:88-94`), on strings that need no JSON escaping. -/
def serializeMsg (m : Message) : String :=
  "\x7b\"role\":\"" ++ m.role ++ "\",\"content\":\"" ++ m.content ++ "\"\x7d"

/-- `process_inference_request_shared` (`lib.rs:80-115`): build
`[system_prompt_json, message_json, ...]`, call `model.inference` on the
blocking pool, and map an inference error to
`Status::internal("Inference failed: ...")`. -/
def processInferenceShared {C S : Type} (m : LlamaLikeModel C S)
    (systemPrompt : String) (sampleLen : Nat)
    (req : InferenceRunRequest) : Except GrpcError String :=
  match m.inference (systemPrompt :: req.map serializeMsg) sampleLen with
  | .ok response => .ok response
  | .error e => .error (.internal ("Inference failed: " ++ e))

/-! ## A concrete scripted backend (the stub of spec §8, scenario 1):
forward passes scripted so that greedy sampling yields tokens `7`, `8`, then
the EOS token `9`; prompt token is `100`. -/

/-- One-hot logits over a 12-entry vocabulary: `5` at `hot`, `0` elsewhere. -/
def oneHot (hot : Token) : List ℚ :=
  (List.range 12).map (fun j => if j = hot then (5 : ℚ) else 0)

/-- Scripted token stream: call 0 ↦ `7`, call 1 ↦ `8`, later calls ↦ `9`. -/
def scriptTok (call : Nat) : Token :=
  match call with
  | 0 => 7
  | 1 => 8
  | _ => 9

/-- Scripted engine backend: the cache is the forward-call counter, the
sampler is candle's greedy argmax, EOS is `Single(9)`. -/
def demoEngine : EngineModel Nat Unit where
  useKvCache := true
  initCache := 0
  forward := fun _ _ call => .ok (oneHot (scriptTok call), call + 1)
  eosHandler := .single 9
  sample := fun logits _ => (sampleArgmax logits).map (fun t => (t, ()))
  initSampler := ()

/-- Inference config of the scripted backend (greedy, no repeat penalty). -/
def demoCfg : InferenceConfig :=
  { temperature := 0, topK := Option.none, topP := Option.none,
    seed := some 42, repeatPenalty := 1, repeatLastN := 64 }

/-- Per-token text of the stub tokenizer. -/
def demoTokenText (t : Token) : String :=
  "<" ++ toString t ++ ">"

/-- Special-token ids of the stub tokenizer (the EOS token). -/
def demoSpecials : List Token := [9]

/-- Stub tokenizer decode with `skip_special_tokens = true`: special ids
contribute nothing to the text. -/
def demoDecode (tokens : List Token) : Except String String :=
  .ok (String.join ((tokens.filter (fun t => !demoSpecials.contains t)).map demoTokenText))

/-- The scripted `LlamaModel` stand-in: every prompt tokenizes to the single
prompt token `100`; render concatenates the prompt parts. -/
def demoModel : LlamaLikeModel Nat Unit where
  engine := demoEngine
  cfg := demoCfg
  tokenize := fun _ => .ok [100]
  decode := demoDecode
  render := fun parts => .ok (String.join parts)

/-- The `inf` closure of the scripted server:
`process_inference_request_shared` over the scripted model. -/
def demoInf : InferenceRunRequest → Except GrpcError String :=
  processInferenceShared demoModel "\x7b\"role\":\"system\",\"content\":\"sys\"\x7d" 64

/-! ## Spec-side definition for claim C5 -/

/-- Claim-side logits shaping, following the claim's words: penalise exactly
at the indices drawn from the last `repeat_last_n` **emitted** tokens
(`emitted` excludes prompt tokens), dividing non-negative logits by the
penalty and multiplying negative ones. -/
def shapeLogitsSpec (cfg : InferenceConfig) (emitted : List Token)
    (logits : List ℚ) : List ℚ :=
  if cfg.repeatPenalty ≠ 1 then
    applyRepeatPenalty logits cfg.repeatPenalty
      (emitted.drop (emitted.length - cfg.repeatLastN))
  else logits

/-! ## `get_last_json` (`src/src/utils.rs:3-48`)

The function is embedded over `List Char` (the source works on byte indices
of UTF-8 strings; on the ASCII inputs used below the two are identical, and
the byte arithmetic of the source is position-consistent in exactly the same
way).  `serde_json::from_str::<Value>` is kept abstract as a `parse`
parameter of the scan; a small executable JSON reader (`parseJsonChars`)
instantiates it in concrete statements. -/

/-- A JSON value (the shape of `serde_json::Value`; numbers restricted to
integers, strings to escape-free ones — all the concrete inputs below use). -/
inductive Json where
  | null
  | bool (b : Bool)
  | num (n : Int)
  | str (s : List Char)
  | arr (xs : List Json)
  | obj (fields : List (List Char × Json))
deriving Repr

/-- Decimal digits to a number (structural, for the JSON reader). -/
def digitsToNat (ds : List Char) : Nat :=
  ds.foldl (fun acc c => acc * 10 + (c.toNat - 48)) 0

/-- Drop leading whitespace. -/
def skipWs : List Char → List Char
  | [] => []
  | c :: rest => if c.isWhitespace then skipWs rest else c :: rest

/-- Rust `str::trim` on a char list. -/
def trimChars (s : List Char) : List Char :=
  ((s.dropWhile Char.isWhitespace).reverse.dropWhile Char.isWhitespace).reverse

mutual

/-- Modelled from the spec: `serde_json::from_str::<Value>` is an external
crate (only called, not defined, in this repository); this is a fuel-bounded
reader for the JSON subset exercised by the concrete inputs below (integer
numbers, escape-free strings, arrays, objects, literals). -/
def parseVal (fuel : Nat) (s : List Char) : Option (Json × List Char) :=
  match fuel with
  | 0 => Option.none
  | fuel + 1 =>
    match skipWs s with
    | 'n' :: rest =>
      if ['u', 'l', 'l'].isPrefixOf rest then some (.null, rest.drop 3) else Option.none
    | 't' :: rest =>
      if ['r', 'u', 'e'].isPrefixOf rest then some (.bool true, rest.drop 3) else Option.none
    | 'f' :: rest =>
      if ['a', 'l', 's', 'e'].isPrefixOf rest then some (.bool false, rest.drop 4)
      else Option.none
    | '"' :: rest =>
      let content := rest.takeWhile (fun c => !(c = '"' || c = '\\'))
      (match rest.drop content.length with
       | '"' :: rest2 => some (.str content, rest2)
       | _ => Option.none)
    | '-' :: rest =>
      let digits := rest.takeWhile Char.isDigit
      if digits.isEmpty then Option.none
      else some (.num (-(Int.ofNat (digitsToNat digits))), rest.drop digits.length)
    | '[' :: rest => (parseArrElems fuel rest).map (fun p => (.arr p.1, p.2))
    | '\x7b' :: rest => (parseObjFields fuel rest).map (fun p => (.obj p.1, p.2))
    | c :: rest =>
      if c.isDigit then
        let digits := (c :: rest).takeWhile Char.isDigit
        some (.num (Int.ofNat (digitsToNat digits)), (c :: rest).drop digits.length)
      else Option.none
    | [] => Option.none

/-- Array elements after `[`, up to and consuming the closing `]`. -/
def parseArrElems (fuel : Nat) (s : List Char) : Option (List Json × List Char) :=
  match fuel with
  | 0 => Option.none
  | fuel + 1 =>
    match skipWs s with
    | ']' :: rest => some ([], rest)
    | _ =>
      match parseVal fuel s with
      | Option.none => Option.none
      | some (v, rest) =>
        match skipWs rest with
        | ',' :: rest2 => (parseArrElems fuel rest2).map (fun p => (v :: p.1, p.2))
        | ']' :: rest2 => some ([v], rest2)
        | _ => Option.none

/-- Object fields after the opening brace, up to and consuming the closer. -/
def parseObjFields (fuel : Nat) (s : List Char) :
    Option (List (List Char × Json) × List Char) :=
  match fuel with
  | 0 => Option.none
  | fuel + 1 =>
    match skipWs s with
    | '\x7d' :: rest => some ([], rest)
    | '"' :: rest =>
      let key := rest.takeWhile (fun c => !(c = '"' || c = '\\'))
      (match rest.drop key.length with
       | '"' :: rest2 =>
         (match skipWs rest2 with
          | ':' :: rest3 =>
            (match parseVal fuel rest3 with
             | Option.none => Option.none
             | some (v, rest4) =>
               match skipWs rest4 with
               | ',' :: rest5 => (parseObjFields fuel rest5).map (fun p => ((key, v) :: p.1, p.2))
               | '\x7d' :: rest5 => some ([(key, v)], rest5)
               | _ => Option.none)
          | _ => Option.none)
       | _ => Option.none)
    | _ => Option.none

end

/-- Top-level `serde_json::from_str::<Value>` model: one JSON value, then
only trailing whitespace. -/
def parseJsonChars (s : List Char) : Option Json :=
  match parseVal (s.length + 1) s with
  | some (v, rest) => if skipWs rest = [] then some v else Option.none
  | Option.none => Option.none

/-- The `"Action:"` marker. -/
def actionMarker : List Char := "Action:".toList

/-- The triple-backtick fence. -/
def fence : List Char := "```".toList

/-- Rust `str::find(pattern)`: position of the first occurrence. -/
def findSub (pat : List Char) : List Char → Option Nat
  | [] => if pat.isEmpty then some 0 else Option.none
  | c :: rest =>
    if pat.isPrefixOf (c :: rest) then some 0 else (findSub pat rest).map (· + 1)

/-- Does the remainder start a bare JSON candidate (`{` or `[`)? -/
def startsBare (s : List Char) : Bool :=
  match s with
  | c :: _ => c = '\x7b' || c = '['
  | [] => false

/-- The `while let Some(start) = input[current_pos..].find("Action:")` loop of
`get_last_json` (`src/src/utils.rs:8-45`), one recursive step per iteration.
Each continuing iteration advances `current_pos` by at least the marker
length, so `fuel = input.length + 1` (supplied by the wrapper) never runs
out before the loop exits on its own. -/
def getLastJsonGo {V : Type} (parse : List Char → Option V) (input : List Char) :
    Nat → Nat → Option V → Option V
  | 0, _, lastValid => lastValid
  | fuel + 1, currentPos, lastValid =>
    match findSub actionMarker (input.drop currentPos) with
    | Option.none => lastValid
    | some start =>
      let jsonStart0 := currentPos + start + actionMarker.length
      let ws := ((input.drop jsonStart0).takeWhile Char.isWhitespace).length
      let jsonStart := jsonStart0 + ws
      let remaining := input.drop jsonStart
      if fence.isPrefixOf remaining then
        let codeStart := jsonStart + 3
        match findSub fence (input.drop codeStart) with
        | some codeEnd =>
          let jsonStr := (input.drop codeStart).take codeEnd
          let lastValid' :=
            match parse (trimChars jsonStr) with
            | some v => some v
            | Option.none => lastValid
          getLastJsonGo parse input fuel (codeStart + codeEnd + 3) lastValid'
        | Option.none => lastValid
      else if startsBare remaining then
        match parse remaining with
        | some v => some v
        | Option.none => lastValid
      else
        getLastJsonGo parse input fuel jsonStart lastValid

/-- `get_last_json` (`src/src/utils.rs:3-48`), generic over the JSON reader
standing in for `serde_json::from_str::<Value>`. -/
def getLastJson {V : Type} (parse : List Char → Option V) (input : List Char) : Option V :=
  getLastJsonGo parse input (input.length + 1) 0 Option.none

/-- The candidate texts the `get_last_json` scan examines, in scan order:
closed fenced blocks (trimmed) after `Action:` markers, stopping at the
first unclosed fence, or at the first marker immediately followed by `{` or
`[` — whose candidate is the entire remaining input and is final.  This
follows the scan's own movement and is independent of the parser. -/
def scanCandidatesGo (input : List Char) : Nat → Nat → List (List Char)
  | 0, _ => []
  | fuel + 1, currentPos =>
    match findSub actionMarker (input.drop currentPos) with
    | Option.none => []
    | some start =>
      let jsonStart0 := currentPos + start + actionMarker.length
      let ws := ((input.drop jsonStart0).takeWhile Char.isWhitespace).length
      let jsonStart := jsonStart0 + ws
      let remaining := input.drop jsonStart
      if fence.isPrefixOf remaining then
        let codeStart := jsonStart + 3
        match findSub fence (input.drop codeStart) with
        | some codeEnd =>
          trimChars ((input.drop codeStart).take codeEnd) ::
            scanCandidatesGo input fuel (codeStart + codeEnd + 3)
        | Option.none => []
      else if startsBare remaining then [remaining]
      else scanCandidatesGo input fuel jsonStart

/-- Candidate texts of the whole scan. -/
def scanCandidates (input : List Char) : List (List Char) :=
  scanCandidatesGo input (input.length + 1) 0

/-- All positions at which the `Action:` marker occurs in the input. -/
def markerPositions (input : List Char) : List Nat :=
  (List.range (input.length + 1)).filter
    (fun i => actionMarker.isPrefixOf (input.drop i))

/-- The candidate text after one marker occurrence, read off the claim's
words: skip whitespace after the marker; a closed triple-backtick fence
yields its trimmed content, a bare `{`/`[` yields the remaining input. -/
def claimCandidateAt (input : List Char) (i : Nat) : Option (List Char) :=
  let jsonStart0 := i + actionMarker.length
  let ws := ((input.drop jsonStart0).takeWhile Char.isWhitespace).length
  let jsonStart := jsonStart0 + ws
  let remaining := input.drop jsonStart
  if fence.isPrefixOf remaining then
    match findSub fence (input.drop (jsonStart + 3)) with
    | some codeEnd => some (trimChars ((input.drop (jsonStart + 3)).take codeEnd))
    | Option.none => Option.none
  else if startsBare remaining then some remaining
  else Option.none

/-- Modelled from the claim's words for C9: "the last parseable JSON value
that follows an `Action:` marker (the JSON being either
triple-backtick-fenced or a bare JSON object/array immediately after the
marker)", considering **every** marker occurrence. -/
def specLastActionJson {V : Type} (parse : List Char → Option V)
    (input : List Char) : Option V :=
  (((markerPositions input).filterMap (claimCandidateAt input)).filterMap parse).getLast?

/-! ## Concrete states and backends used in closed statements -/

/-- The server state carried by a `RunOutcome`. -/
def RunOutcome.state : RunOutcome → ServerState
  | .reply _ s => s
  | .err _ s => s
  | .blocked s => s

/-- The reply of a `RunOutcome`, when the handler returned one. -/
def RunOutcome.replyOf : RunOutcome → Option InferenceRunReply
  | .reply r _ => some r
  | .err _ _ => Option.none
  | .blocked _ => Option.none

/-- Backend for the C5 counterexample: stateless forward always emitting
logits with the single positive entry at index `10` (a prompt-token id);
no EOS. -/
def engine5 : EngineModel Unit Unit where
  useKvCache := false
  initCache := ()
  forward := fun _ _ _ => .ok (oneHot 10, ())
  eosHandler := .none
  sample := fun logits _ => (sampleArgmax logits).map (fun t => (t, ()))
  initSampler := ()

/-- Config for the C5 counterexample: `repeat_penalty = 2`, `repeat_last_n = 4`. -/
def cfg5 : InferenceConfig :=
  { temperature := 0, topK := Option.none, topP := Option.none,
    seed := some 42, repeatPenalty := 2, repeatLastN := 4 }

/-- A server state whose prompt queue is at capacity (one slot, one pending
job) while the processing flag is `true` and the queue is enabled. -/
def fullState : ServerState :=
  ⟨⟨[⟨"j0", []⟩], 1, true, 1⟩, true, ⟨[], 60⟩, false⟩

/-- An idle server state with the queue disabled. -/
def idleDisabledState : ServerState :=
  ⟨⟨[], 2, true, 0⟩, false, ⟨[], 60⟩, true⟩

/-- An idle server state with the queue enabled and nothing processing. -/
def idleQueuedState : ServerState :=
  ⟨⟨[], 2, true, 0⟩, false, ⟨[], 60⟩, false⟩

/-- A busy queue-enabled server state with one free queue slot. -/
def busyState : ServerState :=
  ⟨⟨[], 2, true, 0⟩, true, ⟨[], 60⟩, false⟩

/-- Two queued jobs: the first will fail generation, the second succeed. -/
def drainJobs : List QueuedRequest :=
  [⟨"ja", [⟨"user", "fail"⟩]⟩, ⟨"jb", [⟨"user", "ok"⟩]⟩]

/-- Scripted drainer inference: fails exactly on the "fail" request. -/
def drainInf : InferenceRunRequest → Except GrpcError String :=
  fun req =>
    if req = [⟨"user", "fail"⟩] then .error (.internal "Inference failed: boom")
    else .ok "done"

/-- Server state holding `drainJobs` with the processing flag set. -/
def drainState : ServerState :=
  ⟨⟨drainJobs, 4, true, 2⟩, true, ⟨[], 60⟩, false⟩

/-- C9 counterexample input: a first `Action:` followed by a bare object
with trailing text (unparseable as a whole), then a second `Action:` with a
parseable fenced JSON value. -/
def ex9 : List Char := "Action: \x7b\"a\":1\x7d x\nAction: ```1```".toList

/-- The iteration record of prefill step `0` of the scripted demo run:
full-window `[100]` at position `0`, one-hot logits for token `7`,
passed through unchanged (`repeat_penalty = 1`). -/
def recW5 : IterRecord := ⟨[100], 0, oneHot 7, oneHot 7, 7⟩

/-- An empty result cache over `String` keys and `Nat` values, TTL 5. -/
def cache4 : ResultCache String Nat := ⟨[], 5⟩

/-- The iteration record of decode step `1` of the scripted demo run:
single-token window `[7]` at position `1`, one-hot logits for token `8`. -/
def rc31 : IterRecord := ⟨[7], 1, oneHot 8, oneHot 8, 8⟩

/-- The token list at the start of decode step `1` of the demo run. -/
def toks31 : List Token := [100, 7]

/-! ## Lemmas: repeat penalty -/

theorem penalizeIdx_length (p : ℚ) (t : Nat) (logits : List ℚ) :
    (penalizeIdx p t logits).length = logits.length := by
  induction logits generalizing t with
  | nil => simp [penalizeIdx]
  | cons l rest ih =>
    cases t with
    | zero => simp [penalizeIdx]
    | succ n => simp [penalizeIdx, ih]

theorem penalizeLogit_zero (p : ℚ) : penalizeLogit p 0 = 0 := by
  simp [penalizeLogit]

theorem penalizeIdx_getD (p : ℚ) (t : Nat) (logits : List ℚ) (j : Nat) :
    (penalizeIdx p t logits).getD j 0 =
      if j = t then penalizeLogit p (logits.getD j 0) else logits.getD j 0 := by
  induction logits generalizing t j with
  | nil =>
    simp [penalizeIdx, penalizeLogit_zero]
  | cons l rest ih =>
    cases t with
    | zero =>
      cases j with
      | zero => simp [penalizeIdx]
      | succ m => simp [penalizeIdx]
    | succ n =>
      cases j with
      | zero => simp [penalizeIdx]
      | succ m => simpa [penalizeIdx] using ih n m

theorem applyRepeatPenaltyGo_length (p : ℚ) (ctx seen : List Token) (logits : List ℚ) :
    (applyRepeatPenaltyGo logits p ctx seen).length = logits.length := by
  induction ctx generalizing logits seen with
  | nil => rfl
  | cons t rest ih =>
    by_cases h : t ∈ seen
    · simp [applyRepeatPenaltyGo, h, ih]
    · simp [applyRepeatPenaltyGo, h, ih, penalizeIdx_length]

theorem applyRepeatPenaltyGo_getD (p : ℚ) (ctx : List Token) (seen : List Token)
    (logits : List ℚ) (j : Nat) :
    (applyRepeatPenaltyGo logits p ctx seen).getD j 0 =
      if j ∈ ctx ∧ j ∉ seen then penalizeLogit p (logits.getD j 0)
      else logits.getD j 0 := by
  induction ctx generalizing logits seen with
  | nil => simp [applyRepeatPenaltyGo]
  | cons t rest ih =>
    by_cases hts : t ∈ seen
    · rw [applyRepeatPenaltyGo, if_pos hts, ih]
      by_cases hj : j = t
      · subst hj
        simp [hts]
      · simp [List.mem_cons, hj]
    · rw [applyRepeatPenaltyGo, if_neg hts, ih, penalizeIdx_getD]
      by_cases hj : j = t
      · subst hj
        simp [hts]
      · simp [List.mem_cons, hj]

theorem applyRepeatPenalty_getD (p : ℚ) (ctx : List Token) (logits : List ℚ) (j : Nat) :
    (applyRepeatPenalty logits p ctx).getD j 0 =
      if j ∈ ctx then penalizeLogit p (logits.getD j 0) else logits.getD j 0 := by
  rw [applyRepeatPenalty, applyRepeatPenaltyGo_getD]
  simp

theorem shapeLogits_length (cfg : InferenceConfig) (tokens : List Token) (logits : List ℚ) :
    (shapeLogits cfg tokens logits).length = logits.length := by
  rw [shapeLogits]
  split
  · rw [applyRepeatPenalty, applyRepeatPenaltyGo_length]
  · rfl

theorem shapeLogits_getD (cfg : InferenceConfig) (tokens : List Token)
    (logits : List ℚ) (j : Nat) :
    (shapeLogits cfg tokens logits).getD j 0 =
      if cfg.repeatPenalty ≠ 1 ∧ j ∈ tokens.drop (tokens.length - cfg.repeatLastN) then
        penalizeLogit cfg.repeatPenalty (logits.getD j 0)
      else logits.getD j 0 := by
  rw [shapeLogits]
  by_cases hp : cfg.repeatPenalty ≠ 1
  · rw [if_pos hp, applyRepeatPenalty_getD]
    by_cases hj : j ∈ tokens.drop (tokens.length - cfg.repeatLastN) <;> simp [hp, hj]
  · simp [hp]

/-! ## Lemmas: generation loop -/

theorem drop_length_sub_one_eq_getLast {α : Type} (l : List α) :
    l.drop (l.length - 1) = l.getLast?.toList := by
  induction l with
  | nil => rfl
  | cons a t ih =>
    cases t with
    | nil => rfl
    | cons b u =>
      have h2 : (a :: b :: u).length - 1 = u.length + 1 := by simp
      have h3 : (b :: u).length - 1 = u.length := by simp
      rw [h2, List.drop_succ_cons, List.getLast?_cons_cons, ← ih, h3]

theorem genLoop_fwdCount_le {C S : Type} (m : EngineModel C S) (cfg : InferenceConfig) :
    ∀ (fuel : Nat) (tokens : List Token) (idx : Nat) (cache : C) (samp : S),
      (genLoop m cfg tokens idx cache samp fuel).fwdCount ≤ fuel := by
  intro fuel
  induction fuel with
  | zero => intro tokens idx cache samp; simp [genLoop]
  | succ n ih =>
    intro tokens idx cache samp
    simp only [genLoop]
    split
    · simp
    · split
      · simp
      · split
        · simp
        · simpa using Nat.succ_le_succ (ih _ _ _ _)

theorem genLoop_records_length_le {C S : Type} (m : EngineModel C S) (cfg : InferenceConfig) :
    ∀ (fuel : Nat) (tokens : List Token) (idx : Nat) (cache : C) (samp : S),
      (genLoop m cfg tokens idx cache samp fuel).records.length ≤ fuel := by
  intro fuel
  induction fuel with
  | zero => intro tokens idx cache samp; simp [genLoop]
  | succ n ih =>
    intro tokens idx cache samp
    simp only [genLoop]
    split
    · simp
    · split
      · simp
      · split
        · simp
        · simpa using Nat.succ_le_succ (ih _ _ _ _)

theorem except_map_eq_ok {ε α β : Type} (f : α → β) (x : Except ε α) (b : β) :
    x.map f = .ok b ↔ ∃ a, x = .ok a ∧ f a = b := by
  cases x <;> simp [Except.map]

theorem genLoop_result_eq_map_sampled {C S : Type} (m : EngineModel C S)
    (cfg : InferenceConfig) :
    ∀ (fuel : Nat) (tokens : List Token) (idx : Nat) (cache : C) (samp : S)
      (gen : List Token),
      (genLoop m cfg tokens idx cache samp fuel).result = .ok gen →
      gen = (genLoop m cfg tokens idx cache samp fuel).records.map
        (fun rec => rec.sampled) := by
  intro fuel
  induction fuel with
  | zero =>
    intro tokens idx cache samp gen h
    simp [genLoop] at h ⊢
    exact h
  | succ n ih =>
    intro tokens idx cache samp gen
    simp only [genLoop]
    split
    · intro h; simp at h
    · split
      · intro h; simp at h
      · split
        · intro h
          simp at h ⊢
          first
          | exact h
          | exact h.symm
        · intro h
          simp only at h
          rw [except_map_eq_ok] at h
          obtain ⟨g, hg, hfg⟩ := h
          rw [← hfg]
          simp only [List.map_cons, List.cons.injEq, true_and]
          exact ih _ _ _ _ g hg

/-- What one iteration record must look like, given the token list `toks` at
the start of that iteration and the loop index `pos` of the iteration:
the context window and position of the `forward` call, and the relation of
the sampler's input to the raw logits. -/
def recordMatches {C S : Type} (m : EngineModel C S) (cfg : InferenceConfig)
    (toks : List Token) (pos : Nat) (r : IterRecord) : Prop :=
  r.ctxt = (if m.useKvCache = true ∧ 0 < pos then toks.getLast?.toList else toks) ∧
  r.contextIndex = (if m.useKvCache = true ∧ 0 < pos then toks.length - 1 else 0) ∧
  r.shapedLogits = shapeLogits cfg toks r.rawLogits

theorem contextWindow_drop (useKv : Bool) (index : Nat) (tokens : List Token) :
    tokens.drop (tokens.length - (contextWindow useKv index tokens).1) =
      (if useKv = true ∧ 0 < index then tokens.getLast?.toList else tokens) := by
  rw [contextWindow]
  split
  · simpa using drop_length_sub_one_eq_getLast tokens
  · simp

theorem contextWindow_idx (useKv : Bool) (index : Nat) (tokens : List Token) :
    (contextWindow useKv index tokens).2 =
      (if useKv = true ∧ 0 < index then tokens.length - 1 else 0) := by
  rw [contextWindow]
  split <;> rfl

theorem genLoop_records_char {C S : Type} (m : EngineModel C S) (cfg : InferenceConfig) :
    ∀ (fuel : Nat) (tokens : List Token) (idx : Nat) (cache : C) (samp : S)
      (i : Nat) (r : IterRecord),
      ((genLoop m cfg tokens idx cache samp fuel).records.drop i).head? = some r →
      recordMatches m cfg
        (tokens ++ ((genLoop m cfg tokens idx cache samp fuel).records.take i).map
          (fun rec => rec.sampled))
        (idx + i) r := by
  intro fuel
  induction fuel with
  | zero =>
    intro tokens idx cache samp i r h
    simp [genLoop] at h
  | succ n ih =>
    intro tokens idx cache samp i r
    simp only [genLoop]
    split
    · intro h; simp at h
    · split
      · intro h; simp at h
      · split
        · cases i with
          | zero =>
            intro h
            simp only [List.drop_zero, List.head?_cons, Option.some.injEq] at h
            subst h
            simp only [List.take_zero, List.map_nil, List.append_nil, Nat.add_zero]
            exact ⟨contextWindow_drop _ _ _, contextWindow_idx _ _ _, rfl⟩
          | succ j =>
            intro h
            simp at h
        · cases i with
          | zero =>
            intro h
            simp only [List.drop_zero, List.head?_cons, Option.some.injEq] at h
            subst h
            simp only [List.take_zero, List.map_nil, List.append_nil, Nat.add_zero]
            exact ⟨contextWindow_drop _ _ _, contextWindow_idx _ _ _, rfl⟩
          | succ j =>
            intro h
            simp only [List.drop_succ_cons] at h
            simp only [List.take_succ_cons, List.map_cons]
            have happ : ∀ (t : Token) (X : List Token),
                tokens ++ t :: X = (tokens ++ [t]) ++ X := by
              intro t X
              simp
            rw [happ _ _, show idx + (j + 1) = (idx + 1) + j from by omega]
            exact ih _ _ _ _ j r h

theorem head?_drop_eq {α : Type} (l : List α) (i : Nat) :
    (l.drop i).head? = l.get? i := by
  induction l generalizing i with
  | nil => cases i <;> rfl
  | cons a t ih =>
    cases i with
    | zero => rfl
    | succ j => simpa using ih j

theorem genLoop_ok_dropLast_no_eos {C S : Type} (m : EngineModel C S)
    (cfg : InferenceConfig) :
    ∀ (fuel : Nat) (tokens : List Token) (idx : Nat) (cache : C) (samp : S)
      (gen : List Token),
      (genLoop m cfg tokens idx cache samp fuel).result = .ok gen →
      gen.dropLast.all (fun t => !(m.eosHandler.isEosToken t)) = true := by
  intro fuel
  induction fuel with
  | zero =>
    intro tokens idx cache samp gen h
    simp [genLoop] at h
    subst h
    simp
  | succ n ih =>
    intro tokens idx cache samp gen
    simp only [genLoop]
    split
    · intro h; simp at h
    · split
      · intro h; simp at h
      · split
        · intro h
          simp at h
          subst h
          simp
        · rename_i hnoeos
          intro h
          simp only at h
          rw [except_map_eq_ok] at h
          obtain ⟨g, hg, hfg⟩ := h
          subst hfg
          cases g with
          | nil => simp
          | cons b u =>
            have hall := ih _ _ _ _ (b :: u) hg
            simp only [List.dropLast_cons₂, List.all_cons, Bool.and_eq_true]
            refine ⟨?_, hall⟩
            simp only [Bool.not_eq_true']
            exact Bool.eq_false_iff.mpr hnoeos

/-! ## Lemmas: result cache -/

theorem find?_filter_of_imp {α : Type} (l : List α) (p q : α → Bool)
    (h : ∀ x, p x = true → q x = true) :
    (l.filter q).find? p = l.find? p := by
  induction l with
  | nil => rfl
  | cons a t ih =>
    by_cases hq : q a = true
    · rw [List.filter_cons_of_pos hq]
      by_cases hp : p a = true
      · rw [List.find?_cons_of_pos _ hp, List.find?_cons_of_pos _ hp]
      · rw [List.find?_cons_of_neg _ (by simpa using hp),
          List.find?_cons_of_neg _ (by simpa using hp), ih]
    · have hp : ¬ p a = true := fun hpa => hq (h a hpa)
      rw [List.filter_cons_of_neg (by simpa using hq), ih,
        List.find?_cons_of_neg _ (by simpa using hp)]

theorem ResultCache.lookup_insert_self {K V : Type} [DecidableEq K]
    (c : ResultCache K V) (now : Int) (k : K) (v : V) :
    (c.insert now k v).lookup k = some (v, now) := by
  simp [ResultCache.insert, ResultCache.lookup, List.find?_cons]

theorem ResultCache.lookup_insert_ne {K V : Type} [DecidableEq K]
    (c : ResultCache K V) (now : Int) (k k' : K) (v : V) (h : k' ≠ k) :
    (c.insert now k v).lookup k' = c.lookup k' := by
  simp only [ResultCache.insert, ResultCache.lookup]
  rw [List.find?_cons_of_neg _ (by simpa using fun heq => h heq.symm)]
  congr 1
  exact find?_filter_of_imp _ _ _ (by
    intro x hx
    simp only [decide_eq_true_eq] at hx
    simpa [hx] using h)

theorem ResultCache.get_of_lookup_none {K V : Type} [DecidableEq K]
    (c : ResultCache K V) (now : Int) (k : K) (h : c.lookup k = Option.none) :
    c.get now k = (Option.none, c) := by
  simp [ResultCache.get, h]

theorem ResultCache.insert_ttl {K V : Type} [DecidableEq K]
    (c : ResultCache K V) (now : Int) (k : K) (v : V) :
    (c.insert now k v).ttl = c.ttl := rfl

theorem ResultCache.lookup_filter_self_none {K V : Type} [DecidableEq K]
    (entries : List (K × V × Int)) (k : K) (ttl : Int) :
    (ResultCache.mk (entries.filter (fun e => ¬ e.1 = k)) ttl).lookup k = Option.none := by
  have hnone : (entries.filter (fun e => ¬ e.1 = k)).find? (fun e => e.1 = k) = Option.none := by
    rw [List.find?_eq_none]
    intro x hx
    have hmem := List.of_mem_filter hx
    simpa using hmem
  simp [ResultCache.lookup, hnone]

/-! ## Lemmas: queue drainer -/

theorem processQueue_nil (inf : InferenceRunRequest → Except GrpcError String)
    (now : Int) (s : ServerState) (hs : s.queue.buffer = []) :
    processQueue inf now s = ({ s with processing := false }, []) := by
  rw [processQueue]
  split
  · rfl
  · rename_i job q hdq
    rw [PromptQueue.dequeue, hs] at hdq
    simp at hdq

theorem processQueue_cons (inf : InferenceRunRequest → Except GrpcError String)
    (now : Int) (s : ServerState) (job : QueuedRequest)
    (rest : List QueuedRequest) (hs : s.queue.buffer = job :: rest) :
    processQueue inf now s =
      ((processQueue inf now
          { s with
            queue := { s.queue with buffer := rest, queueLen := s.queue.queueLen - 1 },
            results := s.results.insert now job.jobId (terminalEntry inf job) }).1,
        (job.jobId, terminalEntry inf job) ::
          (processQueue inf now
            { s with
              queue := { s.queue with buffer := rest, queueLen := s.queue.queueLen - 1 },
              results := s.results.insert now job.jobId (terminalEntry inf job) }).2) := by
  rw [processQueue]
  split
  · rename_i hdq
    rw [PromptQueue.dequeue, hs] at hdq
    simp at hdq
  · rename_i job' q hdq
    rw [PromptQueue.dequeue, hs] at hdq
    simp only [Option.some.injEq, Prod.mk.injEq] at hdq
    obtain ⟨hj, hq⟩ := hdq
    subst hj
    subst hq
    rfl

theorem processQueue_spec (inf : InferenceRunRequest → Except GrpcError String)
    (now : Int) :
    ∀ (l : List QueuedRequest) (s : ServerState), s.queue.buffer = l →
      (processQueue inf now s).1.processing = false ∧
      (processQueue inf now s).1.queue.buffer = [] ∧
      (processQueue inf now s).2 =
        l.map (fun job => (job.jobId, terminalEntry inf job)) ∧
      (∀ k : String, k ∉ l.map (fun j => j.jobId) →
        (processQueue inf now s).1.results.lookup k = s.results.lookup k) := by
  intro l
  induction l with
  | nil =>
    intro s hs
    rw [processQueue_nil inf now s hs]
    simp [hs]
  | cons job rest ih =>
    intro s hs
    rw [processQueue_cons inf now s job rest hs]
    have hrec := ih { s with
        queue := { s.queue with buffer := rest, queueLen := s.queue.queueLen - 1 },
        results := s.results.insert now job.jobId (terminalEntry inf job) } rfl
    refine ⟨hrec.1, hrec.2.1, by simp [hrec.2.2.1], ?_⟩
    intro k hk
    simp only [List.map_cons, List.mem_cons, not_or] at hk
    rw [hrec.2.2.2 k hk.2]
    exact ResultCache.lookup_insert_ne _ _ _ _ _ hk.1

theorem processQueue_lookup_mem (inf : InferenceRunRequest → Except GrpcError String)
    (now : Int) :
    ∀ (l : List QueuedRequest) (s : ServerState), s.queue.buffer = l →
      (l.map (fun j => j.jobId)).Nodup →
      ∀ job ∈ l,
        (processQueue inf now s).1.results.lookup job.jobId =
          some (terminalEntry inf job, now) := by
  intro l
  induction l with
  | nil =>
    intro s hs hnd job hj
    simp at hj
  | cons j0 rest ih =>
    intro s hs hnd job hj
    simp only [List.map_cons, List.nodup_cons] at hnd
    rw [processQueue_cons inf now s j0 rest hs]
    rcases List.mem_cons.mp hj with hj0 | hjr
    · subst hj0
      have hpres := (processQueue_spec inf now rest { s with
          queue := { s.queue with buffer := rest, queueLen := s.queue.queueLen - 1 },
          results := s.results.insert now job.jobId (terminalEntry inf job) } rfl).2.2.2
      rw [hpres job.jobId hnd.1]
      exact ResultCache.lookup_insert_self _ _ _ _
    · exact ih { s with
          queue := { s.queue with buffer := rest, queueLen := s.queue.queueLen - 1 },
          results := s.results.insert now j0.jobId (terminalEntry inf j0) } rfl
        hnd.2 job hjr

/-! ## Lemmas: get_last_json scan -/

theorem getLast?_filterMap_cons {α β : Type} (f : α → Option β) (a : α) (l : List α) :
    ((a :: l).filterMap f).getLast? =
      match (l.filterMap f).getLast? with
      | some v => some v
      | Option.none => f a := by
  rw [List.filterMap_cons]
  cases hfa : f a with
  | none =>
    cases hl : (l.filterMap f).getLast? <;> simp [hl]
  | some b =>
    cases hm : l.filterMap f with
    | nil => simp [hm]
    | cons c mrest =>
      rw [List.getLast?_cons_cons]
      cases hg : (c :: mrest).getLast? with
      | none => simp at hg
      | some x => simp [hg]

theorem getLastJsonGo_eq {V : Type} (parse : List Char → Option V) (input : List Char) :
    ∀ (fuel : Nat) (currentPos : Nat) (lastValid : Option V),
      getLastJsonGo parse input fuel currentPos lastValid =
        match ((scanCandidatesGo input fuel currentPos).filterMap parse).getLast? with
        | some v => some v
        | Option.none => lastValid := by
  intro fuel
  induction fuel with
  | zero =>
    intro cp lv
    simp [getLastJsonGo, scanCandidatesGo]
  | succ n ih =>
    intro cp lv
    rw [getLastJsonGo, scanCandidatesGo]
    cases hfind : findSub actionMarker (input.drop cp) with
    | none => simp
    | some start =>
      simp only
      by_cases hfence :
          fence.isPrefixOf (input.drop (cp + start + actionMarker.length +
            ((input.drop (cp + start + actionMarker.length)).takeWhile
              Char.isWhitespace).length)) = true
      · simp only [hfence, if_true]
        cases hclose : findSub fence (input.drop (cp + start + actionMarker.length +
            ((input.drop (cp + start + actionMarker.length)).takeWhile
              Char.isWhitespace).length + 3)) with
        | none => simp
        | some codeEnd =>
          simp only
          rw [ih, getLast?_filterMap_cons]
          cases hrest : ((scanCandidatesGo input n
              (cp + start + actionMarker.length +
                ((input.drop (cp + start + actionMarker.length)).takeWhile
                  Char.isWhitespace).length + 3 + codeEnd + 3)).filterMap parse).getLast? with
          | none =>
            cases hpt : parse (trimChars ((input.drop
                (cp + start + actionMarker.length +
                  ((input.drop (cp + start + actionMarker.length)).takeWhile
                    Char.isWhitespace).length + 3)).take codeEnd)) <;>
              simp [hpt]
          | some v => simp
      · simp only [hfence, if_false, Bool.false_eq_true]
        by_cases hbare :
            startsBare (input.drop (cp + start + actionMarker.length +
              ((input.drop (cp + start + actionMarker.length)).takeWhile
                Char.isWhitespace).length)) = true
        · simp only [hbare, if_true]
          cases hp : parse (input.drop (cp + start + actionMarker.length +
              ((input.drop (cp + start + actionMarker.length)).takeWhile
                Char.isWhitespace).length)) <;>
            simp [hp]
        · simp only [hbare, if_false, Bool.false_eq_true]
          exact ih _ lv

/-! ## Claim theorems -/

/-- C1 (code-bug evidence): with the queue enabled, the processing flag
observed `true`, and the prompt queue already holding `queue_buffer_size`
pending jobs while the channel receiver is alive, `inference_run` does
*not* fail with a queue-full `Internal` error as the claim states: the
bounded-channel send waits for capacity, so the handler blocks (holding the
queue mutex) and the state — in particular the result cache — is never
touched. -/
theorem c1_inference_run_full_queue_blocks :
    inferenceRun demoInf fullState 0 "j1" [] = .blocked fullState ∧
    fullState.results.lookup "j1" = Option.none :=
  ⟨rfl, rfl⟩

/-- C2: for every backend, config, initial token list and `max_tokens`
bound, the generation loop performs at most `max_tokens` forward passes,
and a successful `InferenceEngine::generate` returns at most `max_tokens`
tokens, none of which — except possibly the final one — is an EOS token
(the loop stops immediately after the first EOS). -/
theorem c2_generate_terminates {C S : Type} (m : EngineModel C S)
    (cfg : InferenceConfig) (tokens : List Token) (maxTokens : Nat) :
    (generateFull m cfg tokens maxTokens).fwdCount ≤ maxTokens ∧
    ∀ gen : List Token,
      InferenceEngine.generate m cfg tokens maxTokens = .ok gen →
      gen.length ≤ maxTokens ∧
      gen.dropLast.all (fun t => !(m.eosHandler.isEosToken t)) = true := by
  refine ⟨genLoop_fwdCount_le m cfg maxTokens tokens 0 m.initCache m.initSampler, ?_⟩
  intro gen hok
  constructor
  · have hmap := genLoop_result_eq_map_sampled m cfg maxTokens tokens 0
      m.initCache m.initSampler gen hok
    have hlen := genLoop_records_length_le m cfg maxTokens tokens 0
      m.initCache m.initSampler
    rw [hmap, List.length_map]
    exact hlen
  · exact genLoop_ok_dropLast_no_eos m cfg maxTokens tokens 0
      m.initCache m.initSampler gen hok

/-- Witness for C2 at the scripted backend. -/
theorem c2_witness :
    (generateFull demoEngine demoCfg [100] 64).fwdCount ≤ 64 ∧
    (([7, 8, 9] : List Token).length ≤ 64 ∧
      ([7, 8, 9] : List Token).dropLast.all
        (fun t => !(demoEngine.eosHandler.isEosToken t)) = true) :=
  ⟨(c2_generate_terminates demoEngine demoCfg [100] 64).1,
   (c2_generate_terminates demoEngine demoCfg [100] 64).2 [7, 8, 9] rfl⟩

/-- C3: in every iteration `i` of the generation loop, when the KV cache is
enabled and `i > 0` the forward call receives a single-token window — the
last element of the current token list — at `context_index =
current_tokens.length - 1`; in every other case it receives the full
current token list at `context_index = 0`. -/
theorem c3_generate_context_windows {C S : Type} (m : EngineModel C S)
    (cfg : InferenceConfig) (tokens : List Token) (maxTokens : Nat)
    (i : Nat) (r : IterRecord)
    (h : ((generateFull m cfg tokens maxTokens).records.drop i).head? = some r) :
    (m.useKvCache = true ∧ 0 < i →
      r.ctxt.length = 1 ∧
      r.ctxt = (tokens ++ ((generateFull m cfg tokens maxTokens).records.take i).map
        (fun rec => rec.sampled)).getLast?.toList ∧
      r.contextIndex = (tokens ++ ((generateFull m cfg tokens maxTokens).records.take i).map
        (fun rec => rec.sampled)).length - 1) ∧
    (¬ (m.useKvCache = true ∧ 0 < i) →
      r.ctxt = tokens ++ ((generateFull m cfg tokens maxTokens).records.take i).map
        (fun rec => rec.sampled) ∧
      r.contextIndex = 0) := by
  have hchar := genLoop_records_char m cfg maxTokens tokens 0 m.initCache m.initSampler i r h
  simp only [recordMatches, Nat.zero_add] at hchar
  rw [show genLoop m cfg tokens 0 m.initCache m.initSampler maxTokens =
    generateFull m cfg tokens maxTokens from rfl] at hchar
  obtain ⟨hctxt, hci, _⟩ := hchar
  constructor
  · intro hkv
    rw [if_pos hkv] at hctxt
    rw [if_pos hkv] at hci
    refine ⟨?_, hctxt, hci⟩
    have hlt : i < (generateFull m cfg tokens maxTokens).records.length := by
      by_contra hge
      push_neg at hge
      rw [List.drop_eq_nil_of_le hge] at h
      simp at h
    have hlen : ((generateFull m cfg tokens maxTokens).records.take i).length = i := by
      rw [List.length_take]
      omega
    have htoks : tokens ++ ((generateFull m cfg tokens maxTokens).records.take i).map
        (fun rec => rec.sampled) ≠ [] := by
      intro hempty
      have hcl := congrArg List.length hempty
      simp only [List.length_append, List.length_map, hlen, List.length_nil] at hcl
      omega
    obtain ⟨x, hx⟩ := Option.isSome_iff_exists.mp (List.getLast?_isSome.mpr htoks)
    rw [hctxt, hx]
    rfl
  · intro hkv
    rw [if_neg hkv] at hctxt
    rw [if_neg hkv] at hci
    exact ⟨hctxt, hci⟩

/-- Witness for C3 at the scripted backend (KV cache on): decode iteration
`1` uses the single-token window consisting of the last token of `[100, 7]`
at position `1`. -/
theorem c3_witness :
    rc31.ctxt.length = 1 ∧
    rc31.ctxt = toks31.getLast?.toList ∧
    rc31.contextIndex = toks31.length - 1 :=
  (c3_generate_context_windows demoEngine demoCfg [100] 64 1 rc31 (by decide)).1
    ⟨rfl, by decide⟩

/-- C4: after `insert(k, v)` stamps time `t`, a `get(k)` at time `tq`
returns `Some v` exactly when `tq - t < ttl`; when `tq - t ≥ ttl` it
returns `None` and the expired entry is removed from the map as a side
effect of the read. -/
theorem c4_result_cache_ttl {K V : Type} [DecidableEq K]
    (c : ResultCache K V) (t tq : Int) (k : K) (v : V) :
    ((c.insert t k v).get tq k).1 =
      (if tq - t < c.ttl then some v else Option.none) ∧
    (c.ttl ≤ tq - t → ((c.insert t k v).get tq k).2.lookup k = Option.none) := by
  have hl := ResultCache.lookup_insert_self c t k v
  constructor
  · by_cases hlt : tq - t < c.ttl <;>
      simp [ResultCache.get, hl, hlt, ResultCache.insert_ttl]
  · intro hge
    have hnlt : ¬ tq - t < c.ttl := not_lt.mpr hge
    simp only [ResultCache.get, hl, ResultCache.insert_ttl]
    rw [if_neg hnlt]
    exact ResultCache.lookup_filter_self_none _ _ _

/-- Witness for C4: TTL 5, insert at 0, read at 7 — expired, and the entry
is gone from the map after the read. -/
theorem c4_witness :
    ((cache4.insert 0 "k" 3).get 7 "k").1 =
      (if (7 : Int) - 0 < cache4.ttl then some 3 else Option.none) ∧
    ((cache4.insert 0 "k" 3).get 7 "k").2.lookup "k" = Option.none :=
  ⟨(c4_result_cache_ttl cache4 0 7 "k" 3).1,
   (c4_result_cache_ttl cache4 0 7 "k" 3).2 (by decide)⟩

/-- C5 counterexample: at iteration `0` of a run with prompt `[10]`,
`repeat_penalty = 2`, `repeat_last_n = 4`, **zero** tokens have been emitted
yet, so penalising "the indices drawn from the last `repeat_last_n` emitted
tokens" would leave the logits unchanged — but the loop penalises the
logit at the prompt-token index `10` (the slice is taken from the full
token list, prompt included). -/
theorem c5_counterexample :
    (shapeLogits cfg5 [10] (oneHot 10)).getD 10 0 = 5 / 2 ∧
    (shapeLogitsSpec cfg5 [] (oneHot 10)).getD 10 0 = 5 ∧
    ((5 : ℚ) / 2) ≠ 5 := by
  refine ⟨?_, ?_, by norm_num⟩
  · rw [shapeLogits_getD]
    rw [if_pos ⟨by norm_num [cfg5], by decide⟩]
    rw [show (oneHot 10).getD 10 0 = 5 from by decide]
    rw [penalizeLogit]
    rw [if_pos (by norm_num)]
    norm_num [cfg5]
  · rw [shapeLogitsSpec]
    rw [if_pos (by norm_num [cfg5])]
    simp only [List.drop_nil, List.length_nil]
    rw [applyRepeatPenalty, applyRepeatPenaltyGo]
    decide

/-- C5 (amended): in every generation-loop iteration the logits handed to
the sampler are the raw logits penalised exactly at the indices occurring
among the last `repeat_last_n` entries of the **current token list**
(prompt tokens included when fewer than `repeat_last_n` tokens have been
emitted): non-negative logits divided by `repeat_penalty`, negative ones
multiplied by it; with `repeat_penalty = 1` the logits pass through
unchanged. -/
theorem c5_generate_repeat_penalty {C S : Type} (m : EngineModel C S)
    (cfg : InferenceConfig) (tokens : List Token) (maxTokens : Nat)
    (i : Nat) (r : IterRecord)
    (h : ((generateFull m cfg tokens maxTokens).records.drop i).head? = some r) :
    r.shapedLogits.length = r.rawLogits.length ∧
    ∀ j : Nat,
      r.shapedLogits.getD j 0 =
        if cfg.repeatPenalty ≠ 1 ∧
            j ∈ (tokens ++ ((generateFull m cfg tokens maxTokens).records.take i).map
                (fun rec => rec.sampled)).drop
              ((tokens ++ ((generateFull m cfg tokens maxTokens).records.take i).map
                (fun rec => rec.sampled)).length - cfg.repeatLastN) then
          penalizeLogit cfg.repeatPenalty (r.rawLogits.getD j 0)
        else r.rawLogits.getD j 0 := by
  have hchar := genLoop_records_char m cfg maxTokens tokens 0 m.initCache m.initSampler i r h
  simp only [recordMatches, Nat.zero_add] at hchar
  rw [show genLoop m cfg tokens 0 m.initCache m.initSampler maxTokens =
    generateFull m cfg tokens maxTokens from rfl] at hchar
  obtain ⟨_, _, hshape⟩ := hchar
  constructor
  · rw [hshape, shapeLogits_length]
  · intro j
    rw [hshape, shapeLogits_getD]

/-- Witness for C5 (amended) at the concrete penalty run: iteration `0`,
index `10` is in the penalty window of the full token list `[10]`, and the
raw logit `5` becomes `5 / 2`. -/
theorem c5_witness :
    recW5.shapedLogits.length = recW5.rawLogits.length ∧
    recW5.shapedLogits.getD 10 0 =
      (if demoCfg.repeatPenalty ≠ 1 ∧
          10 ∈ (([100] : List Token) ++
              ((generateFull demoEngine demoCfg [100] 64).records.take 0).map
                (fun rec => rec.sampled)).drop
            ((([100] : List Token) ++
              ((generateFull demoEngine demoCfg [100] 64).records.take 0).map
                (fun rec => rec.sampled)).length - demoCfg.repeatLastN) then
        penalizeLogit demoCfg.repeatPenalty (recW5.rawLogits.getD 10 0)
      else recW5.rawLogits.getD 10 0) :=
  ⟨(c5_generate_repeat_penalty demoEngine demoCfg [100] 64 0 recW5 (by decide)).1,
   (c5_generate_repeat_penalty demoEngine demoCfg [100] 64 0 recW5 (by decide)).2 10⟩

/-- C6: immediate-path `InferenceRun` against the scripted backend whose
forward passes make the sampler yield `7`, `8`, then EOS `9`: generation
returns exactly the new tokens `[7, 8, 9]` (the prompt token `100` is
excluded), the EOS token contributes nothing to the decoded text
(`skip_special_tokens`), and the reply is `OK` with the assistant message
`decode [7, 8]` and a non-empty uuid. -/
theorem c6_immediate_scripted_run :
    InferenceEngine.generate demoEngine demoCfg [100] 64 = .ok [7, 8, 9] ∧
    (100 : Token) ∉ ([7, 8, 9] : List Token) ∧
    demoDecode [7, 8, 9] = demoDecode [7, 8] ∧
    demoDecode [7, 8] = .ok "<7><8>" ∧
    (inferenceRun demoInf idleDisabledState 0 "uuid-1" [⟨"user", "hi"⟩]).replyOf =
      some ⟨some ⟨"assistant", "<7><8>"⟩, "OK", "uuid-1"⟩ ∧
    "uuid-1" ≠ "" := by
  refine ⟨rfl, by decide, rfl, rfl, rfl, by decide⟩

/-- C7: queue enabled, processing flag observed `true`, queue slot free —
`inference_run` appends `{job_id, request}` to the prompt queue, inserts a
`QUEUED` result-cache entry (no response) under the job id, and returns
`{status: QUEUED, response: none, uuid: job_id}`. -/
theorem c7_busy_path_enqueues_and_caches
    (inf : InferenceRunRequest → Except GrpcError String) (s : ServerState)
    (now : Int) (jobId : String) (req : InferenceRunRequest)
    (hqd : s.queueDisabled = false) (hp : s.processing = true)
    (hra : s.queue.receiverAlive = true)
    (hcap : s.queue.buffer.length < s.queue.capacity) :
    (inferenceRun inf s now jobId req).replyOf =
      some ⟨Option.none, "QUEUED", jobId⟩ ∧
    (inferenceRun inf s now jobId req).state.queue.buffer =
      s.queue.buffer ++ [⟨jobId, req⟩] ∧
    (inferenceRun inf s now jobId req).state.results.lookup jobId =
      some (⟨Option.none, "QUEUED", jobId⟩, now) := by
  have henq : s.queue.enqueue jobId req =
      .ok { s.queue with
              buffer := s.queue.buffer ++ [⟨jobId, req⟩]
              queueLen := s.queue.queueLen + 1 } := by
    rw [PromptQueue.enqueue, channelSend]
    simp [hra, hcap]
  simp [inferenceRun, hqd, hp, henq, RunOutcome.replyOf, RunOutcome.state,
    ResultCache.lookup_insert_self]

/-- Witness for C7 at a concrete busy state. -/
theorem c7_witness :
    (inferenceRun demoInf busyState 5 "jq" [⟨"user", "x"⟩]).replyOf =
      some ⟨Option.none, "QUEUED", "jq"⟩ ∧
    (inferenceRun demoInf busyState 5 "jq" [⟨"user", "x"⟩]).state.queue.buffer =
      busyState.queue.buffer ++ [⟨"jq", [⟨"user", "x"⟩]⟩] ∧
    (inferenceRun demoInf busyState 5 "jq" [⟨"user", "x"⟩]).state.results.lookup "jq" =
      some (⟨Option.none, "QUEUED", "jq"⟩, 5) :=
  c7_busy_path_enqueues_and_caches demoInf busyState 5 "jq" [⟨"user", "x"⟩]
    rfl rfl rfl (by decide)

/-- C8: for every drained queue (job ids distinct), the drainer writes
exactly one terminal result-cache entry per dequeued job — `COMPLETED` with
the assistant response on success, `ERROR` with no response on failure —
continues past failing jobs, empties the queue, and resets the processing
flag. -/
theorem c8_drainer_terminal_entries
    (inf : InferenceRunRequest → Except GrpcError String) (now : Int)
    (s : ServerState)
    (hnd : (s.queue.buffer.map (fun j => j.jobId)).Nodup) :
    (processQueue inf now s).1.processing = false ∧
    (processQueue inf now s).1.queue.buffer = [] ∧
    (processQueue inf now s).2 =
      s.queue.buffer.map (fun job => (job.jobId, terminalEntry inf job)) ∧
    ∀ job ∈ s.queue.buffer,
      (processQueue inf now s).1.results.lookup job.jobId =
        some (terminalEntry inf job, now) := by
  have h1 := processQueue_spec inf now s.queue.buffer s rfl
  exact ⟨h1.1, h1.2.1, h1.2.2.1,
    processQueue_lookup_mem inf now s.queue.buffer s rfl hnd⟩

/-- Witness for C8: a two-job queue whose first job fails generation; the
drainer writes `ERROR` for it, continues, writes `COMPLETED` for the
second, and resets the processing flag. -/
theorem c8_witness :
    (processQueue drainInf 0 drainState).1.processing = false ∧
    (processQueue drainInf 0 drainState).1.results.lookup "ja" =
      some (⟨Option.none, "ERROR", "ja"⟩, 0) ∧
    (processQueue drainInf 0 drainState).1.results.lookup "jb" =
      some (⟨some ⟨"assistant", "done"⟩, "COMPLETED", "jb"⟩, 0) := by
  have hh := c8_drainer_terminal_entries drainInf 0 drainState (by decide)
  refine ⟨hh.1, ?_, ?_⟩
  · exact hh.2.2.2 ⟨"ja", [⟨"user", "fail"⟩]⟩ (by decide)
  · exact hh.2.2.2 ⟨"jb", [⟨"user", "ok"⟩]⟩ (by decide)

/-- C9 counterexample: on an input whose first `Action:` is followed by a
bare object with trailing text (so the whole remainder fails to parse) and
whose second `Action:` carries a parseable fenced JSON value, the scan of
`get_last_json` breaks at the first bare brace and returns `None`, although
the last marker-following parseable JSON value is `1`. -/
theorem c9_counterexample :
    getLastJson parseJsonChars ex9 = Option.none ∧
    specLastActionJson parseJsonChars ex9 = some (Json.num 1) :=
  ⟨rfl, rfl⟩

/-- C9 (amended): `get_last_json` returns the last parseable JSON value
among the candidate texts its scan actually examines — the trimmed contents
of closed triple-backtick fences after `Action:` markers, scanned left to
right, stopping at the first unclosed fence or at the first marker
immediately followed by a bare `{` or `[`, in which case the entire
remaining input is the final candidate — and `None` when none of those
candidates parses.  (As stated, the claim fails: a bare-brace candidate
that does not parse hides every later `Action:` marker.) -/
theorem c9_get_last_json_scan {V : Type} (parse : List Char → Option V)
    (input : List Char) :
    getLastJson parse input = ((scanCandidates input).filterMap parse).getLast? := by
  rw [getLastJson, scanCandidates, getLastJsonGo_eq]
  cases h : ((scanCandidatesGo input (input.length + 1) 0).filterMap parse).getLast? <;> simp

/-- C10: on every immediate path (queue disabled, or processing flag
observed `false`) with a successful generation, `inference_run` returns
`OK` with the fresh uuid but inserts nothing into the result cache — the
cache part of the state is unchanged — so a subsequent `InferenceStatus`
or `InferenceResult` for that uuid answers `NotFound`, even after the
spawned drainer has run (its writes are under other job ids). -/
theorem c10_immediate_path_uncached
    (inf : InferenceRunRequest → Except GrpcError String) (s : ServerState)
    (now now2 now3 : Int) (jobId : String) (req : InferenceRunRequest)
    (text : String)
    (himm : s.queueDisabled = true ∨ (s.queueDisabled = false ∧ s.processing = false))
    (hok : inf req = .ok text)
    (hfresh : s.results.lookup jobId = Option.none)
    (hq : ∀ j ∈ s.queue.buffer, j.jobId ≠ jobId) :
    (inferenceRun inf s now jobId req).replyOf =
      some ⟨some ⟨"assistant", text⟩, "OK", jobId⟩ ∧
    (inferenceRun inf s now jobId req).state.results = s.results ∧
    (inferenceStatus (inferenceRun inf s now jobId req).state now2 jobId).1 =
      .error (.notFound ("Job ID " ++ jobId ++ " not found")) ∧
    (inferenceResult (inferenceRun inf s now jobId req).state now2 jobId).1 =
      .error (.notFound ("Job ID " ++ jobId ++ " not found")) ∧
    (inferenceStatus
        (processQueue inf now3 (inferenceRun inf s now jobId req).state).1
        now2 jobId).1 =
      .error (.notFound ("Job ID " ++ jobId ++ " not found")) := by
  have hnotin : jobId ∉ s.queue.buffer.map (fun j => j.jobId) := by
    intro hmem
    rcases List.mem_map.mp hmem with ⟨j, hj, hid⟩
    exact hq j hj hid
  rcases himm with hqd | ⟨hqd, hp⟩
  · have hrun : inferenceRun inf s now jobId req =
        .reply ⟨some ⟨"assistant", text⟩, "OK", jobId⟩ s := by
      simp [inferenceRun, hqd, hok]
    rw [hrun]
    have hget := ResultCache.get_of_lookup_none s.results now2 jobId hfresh
    have hpres := (processQueue_spec inf now3 s.queue.buffer s rfl).2.2.2 jobId hnotin
    have hget2 := ResultCache.get_of_lookup_none (processQueue inf now3 s).1.results
      now2 jobId (hpres.trans hfresh)
    exact ⟨rfl, rfl, by simp [inferenceStatus, RunOutcome.state, hget],
      by simp [inferenceResult, RunOutcome.state, hget],
      by simp [inferenceStatus, RunOutcome.state, hget2]⟩
  · have hrun : inferenceRun inf s now jobId req =
        .reply ⟨some ⟨"assistant", text⟩, "OK", jobId⟩ { s with processing := true } := by
      simp [inferenceRun, hqd, hp, hok]
    rw [hrun]
    have hget := ResultCache.get_of_lookup_none s.results now2 jobId hfresh
    have hpres := (processQueue_spec inf now3 s.queue.buffer
      { s with processing := true } rfl).2.2.2 jobId hnotin
    have hget2 := ResultCache.get_of_lookup_none
      (processQueue inf now3 { s with processing := true }).1.results
      now2 jobId (hpres.trans hfresh)
    exact ⟨rfl, rfl, by simp [inferenceStatus, RunOutcome.state, hget],
      by simp [inferenceResult, RunOutcome.state, hget],
      by simp [inferenceStatus, RunOutcome.state, hget2]⟩

/-- Witness for C10: the scripted backend on the queue-enabled idle path. -/
theorem c10_witness :
    (inferenceRun demoInf idleQueuedState 0 "u1" [⟨"user", "hi"⟩]).replyOf =
      some ⟨some ⟨"assistant", "<7><8>"⟩, "OK", "u1"⟩ ∧
    (inferenceRun demoInf idleQueuedState 0 "u1" [⟨"user", "hi"⟩]).state.results =
      idleQueuedState.results ∧
    (inferenceStatus (inferenceRun demoInf idleQueuedState 0 "u1"
        [⟨"user", "hi"⟩]).state 1 "u1").1 =
      .error (.notFound ("Job ID " ++ "u1" ++ " not found")) ∧
    (inferenceResult (inferenceRun demoInf idleQueuedState 0 "u1"
        [⟨"user", "hi"⟩]).state 1 "u1").1 =
      .error (.notFound ("Job ID " ++ "u1" ++ " not found")) ∧
    (inferenceStatus (processQueue demoInf 2 (inferenceRun demoInf idleQueuedState 0
        "u1" [⟨"user", "hi"⟩]).state).1 1 "u1").1 =
      .error (.notFound ("Job ID " ++ "u1" ++ " not found")) :=
  c10_immediate_path_uncached demoInf idleQueuedState 0 1 2 "u1" [⟨"user", "hi"⟩]
    "<7><8>" (Or.inr ⟨rfl, rfl⟩) rfl rfl (by decide)

end Cylon
